import Mathlib

/-!
Shallow embedding of the local visual-similarity engine of the
smartphotoviewer repository: the embedding pipeline of
`photo-viewer/src/services/embeddingService.ts`, the cache of
`src/services/indexedDBService.ts`, and the clustering / similarity
search of `src/services/clusteringService.ts`.

Modelling conventions:
* JavaScript `number` values inside embedding vectors are modelled as
  rationals (`ℚ`); the results of `Math.sqrt`-based formulas live in `ℝ`.
* The browser collaborators (frame extraction, the CLIP model of
  transformers.js) are a single deterministic oracle `embedFn`: given a
  `MediaFile` it either produces the embedding vector the model would
  return or fails, covering `FrameExtractionFailed`, `ModelLoadFailed`
  and `EmbedFailed` paths of the source.
* The IndexedDB store is a state value threaded through the functions;
  its `ok` flag models whether the storage backend is reachable
  (`openDB` failing makes every `getEmbedding` / `saveEmbedding`
  call reject).
* Thrown exceptions become `Except` values.
-/

namespace PhotoViewer

/-- The `type` field of `MediaFile` in `types.ts`: `'image' | 'video'`. -/
inductive MediaType
  | image
  | video
deriving DecidableEq, Repr

/-- A media item (`MediaFile` in `types.ts`).  The raw `File` object and the
directory handle are opaque to the similarity core; the per-item work done on
the raw bytes enters the model only through the `embedFn` oracle. -/
structure MediaFile where
  name : String
  path : String
  type : MediaType
  lastModified : Int
deriving DecidableEq, Repr

/-- The session embedding map `Map<string, number[]>`: an association list in
insertion order, first occurrence of a key wins on lookup. -/
abbrev EmbMap : Type := List (String × List ℚ)

/-- `Map.get` / `Map.has` backing: first entry with the given key. -/
def mapGet (m : EmbMap) (p : String) : Option (List ℚ) :=
  List.lookup p m

/-- `Map.set`: overwrite the existing entry for the key in place, else append
(JavaScript `Map` keeps first-insertion order on overwrite). -/
def mapSet (m : EmbMap) (k : String) (v : List ℚ) : EmbMap :=
  if (List.lookup k m).isSome then
    m.map (fun kv => if kv.1 == k then (k, v) else kv)
  else m ++ [(k, v)]

/-- The one error thrown by the similarity functions
(`new Error('Vectors must have the same length')`), called
`DimensionMismatch` by the spec. -/
inductive SimilarityError
  | dimensionMismatch
deriving DecidableEq, Repr

/-- `cosineSimilarity` of `embeddingService.ts` (lines 123-139): length
check, then one pass accumulating `dotProduct`, `normA`, `normB`, and the
value `dotProduct / (Math.sqrt(normA) * Math.sqrt(normB))`. -/
noncomputable def cosineSimilarity (a b : List ℚ) : Except SimilarityError ℝ :=
  if a.length ≠ b.length then
    .error .dimensionMismatch
  else
    let dotProduct : ℚ := (List.zipWith (· * ·) a b).sum
    let normA : ℚ := (a.map (fun x => x * x)).sum
    let normB : ℚ := (b.map (fun x => x * x)).sum
    .ok ((dotProduct : ℝ) / (Real.sqrt (normA : ℝ) * Real.sqrt (normB : ℝ)))

/-- `euclideanDistance` of `embeddingService.ts` (lines 141-153): length
check, then `Math.sqrt` of the sum of squared differences. -/
noncomputable def euclideanDistance (a b : List ℚ) : Except SimilarityError ℝ :=
  if a.length ≠ b.length then
    .error .dimensionMismatch
  else
    .ok (Real.sqrt (((List.zipWith (fun x y => (x - y) * (x - y)) a b).sum : ℚ) : ℝ))

/-- Errors of the embedding pipeline.  `storageUnavailable` models a
rejected IndexedDB call; the other constructors classify the failures the
`embedFn` oracle may surface (video frame extraction, model load, model
inference). -/
inductive PipelineError
  | storageUnavailable
  | frameExtractionFailed
  | modelLoadFailed
  | embedFailed
deriving DecidableEq, Repr

/-- A persisted cache record (`EmbeddingCache` in `types.ts`).  The object
URL stored in `thumbnailUrl` is opaque presentation data. -/
structure EmbeddingCacheRecord where
  path : String
  lastModified : Int
  embedding : List ℚ
  thumbnailUrl : String
deriving DecidableEq, Repr

/-- The IndexedDB `embeddings` object store (`indexedDBService.ts`):
records keyed by `path` (`keyPath: 'path'`), plus an `ok` flag modelling
whether the backend is reachable — when it is not, `openDB` rejects and so
does every call going through `getDB`. -/
structure CacheDB where
  entries : List (String × EmbeddingCacheRecord)
  ok : Bool
deriving DecidableEq, Repr

/-- `getEmbedding(path)` of `indexedDBService.ts` (lines 39-43):
`db.get(STORE_NAME, path)`, null coalesced to `none`; rejects when the
backend is unavailable. -/
def getEmbeddingDB (db : CacheDB) (path : String) :
    Except PipelineError (Option EmbeddingCacheRecord) :=
  if db.ok then .ok (List.lookup path db.entries) else .error .storageUnavailable

/-- Upsert of an association list keyed by the record path: `db.put` with
`keyPath: 'path'` overwrites the record stored under the same key. -/
def entriesPut (entries : List (String × EmbeddingCacheRecord))
    (rec : EmbeddingCacheRecord) : List (String × EmbeddingCacheRecord) :=
  if (List.lookup rec.path entries).isSome then
    entries.map (fun kv => if kv.1 == rec.path then (rec.path, rec) else kv)
  else entries ++ [(rec.path, rec)]

/-- `saveEmbedding(cache)` of `indexedDBService.ts` (lines 34-37):
`db.put(STORE_NAME, cache)`; rejects when the backend is unavailable. -/
def saveEmbeddingDB (db : CacheDB) (rec : EmbeddingCacheRecord) :
    Except PipelineError CacheDB :=
  if db.ok then .ok { db with entries := entriesPut db.entries rec }
  else .error .storageUnavailable

/-- `generateEmbedding(mediaFile)` of `embeddingService.ts` (lines 43-99).
Returns the item's result, the cache state afterwards, and how many times
the frame-extraction/model path was entered (0 on a cache hit).

Control flow of the source: the `getEmbedding` cache read happens *before*
the `try` block, so a storage failure rejects the whole call; a fresh hit
(`cached && cached.lastModified === mediaFile.lastModified`) returns the
cached vector with no extractor or model work; otherwise the still image is
extracted and embedded (`embedFn`), and on success the new record is saved
— `saveEmbedding` sits inside the `try`, so a failing save makes the item
fail even though the vector was computed. -/
def generateEmbedding (embedFn : MediaFile → Except PipelineError (List ℚ))
    (db : CacheDB) (mediaFile : MediaFile) :
    Except PipelineError (List ℚ) × CacheDB × Nat :=
  match getEmbeddingDB db mediaFile.path with
  | .error e => (.error e, db, 0)
  | .ok cached =>
    match cached with
    | some c =>
      if c.lastModified = mediaFile.lastModified then
        (.ok c.embedding, db, 0)
      else
        match embedFn mediaFile with
        | .error e => (.error e, db, 1)
        | .ok v =>
          match saveEmbeddingDB db
              ⟨mediaFile.path, mediaFile.lastModified, v, ""⟩ with
          | .error e => (.error e, db, 1)
          | .ok dbNew => (.ok v, dbNew, 1)
    | none =>
      match embedFn mediaFile with
      | .error e => (.error e, db, 1)
      | .ok v =>
        match saveEmbeddingDB db
            ⟨mediaFile.path, mediaFile.lastModified, v, ""⟩ with
        | .error e => (.error e, db, 1)
        | .ok dbNew => (.ok v, dbNew, 1)

/-- Observable outcome of one `batchGenerateEmbeddings` run: the result
map, the cache state, the list of `onProgress(processed, total)` calls in
order, and the total number of frame-extraction/model invocations. -/
structure BatchResult where
  embeddings : EmbMap
  db : CacheDB
  progress : List (Nat × Nat)
  embedCalls : Nat
deriving DecidableEq, Repr

/-- The `for` loop of `batchGenerateEmbeddings` (lines 107-118): at index
`i`, `generateEmbedding(files[i])`; on success record the vector under
`files[i].path` and call `onProgress(i + 1, files.length)`; on failure only
log and continue with the next item. -/
def batchGo (embedFn : MediaFile → Except PipelineError (List ℚ))
    (total : Nat) : List MediaFile → Nat → BatchResult → BatchResult
  | [], _, st => st
  | f :: fs, i, st =>
    match generateEmbedding embedFn st.db f with
    | (.ok v, dbNew, calls) =>
      batchGo embedFn total fs (i + 1)
        { embeddings := mapSet st.embeddings f.path v
          db := dbNew
          progress := st.progress ++ [(i + 1, total)]
          embedCalls := st.embedCalls + calls }
    | (.error _, dbNew, calls) =>
      batchGo embedFn total fs (i + 1)
        { st with db := dbNew, embedCalls := st.embedCalls + calls }

/-- `batchGenerateEmbeddings(files, onProgress)` of `embeddingService.ts`
(lines 101-121): starts from an empty `Map` and iterates the files in
order.  Note the source's signature: there is no `onItemError` parameter —
failures are only logged to the console. -/
def batchGenerateEmbeddings (embedFn : MediaFile → Except PipelineError (List ℚ))
    (db : CacheDB) (files : List MediaFile) : BatchResult :=
  batchGo embedFn files.length files 0 ⟨[], db, [], 0⟩

/-- Success trace of one batch run: walks the items in order against the
evolving cache exactly as the loop does and records, per item, whether its
`generateEmbedding` call succeeded. -/
def batchOutcomes (embedFn : MediaFile → Except PipelineError (List ℚ)) :
    CacheDB → List MediaFile → List Bool
  | _, [] => []
  | db, f :: fs =>
    match generateEmbedding embedFn db f with
    | (.ok _, dbNew, _) => true :: batchOutcomes embedFn dbNew fs
    | (.error _, dbNew, _) => false :: batchOutcomes embedFn dbNew fs

/-- The `onProgress` calls a success trace gives rise to, starting at
0-based index `i`: one `(position + 1, total)` entry per successful item,
nothing for a failed one. -/
def successPositions (total : Nat) : List Bool → Nat → List (Nat × Nat)
  | [], _ => []
  | true :: rest, i => (i + 1, total) :: successPositions total rest (i + 1)
  | false :: rest, i => successPositions total rest (i + 1)

/-- A thematic group (`Cluster` in `types.ts`).  The TypeScript type
declares `representative: MediaFile`, but `clusterByTheme` assigns it
`filesWithEmbeddings[0]`, which is `undefined` on an empty list; the model
keeps the honest runtime type `Option MediaFile` (`none` = `undefined`). -/
structure Cluster where
  id : Nat
  label : String
  files : List MediaFile
  representative : Option MediaFile
deriving DecidableEq, Repr

/-- `CLUSTER_LABELS` of `clusteringService.ts`. -/
def CLUSTER_LABELS : List String :=
  ["Portraits & People", "Nature & Landscapes", "Indoor Scenes",
   "Documents & Screenshots", "Food & Dining", "Architecture & Buildings",
   "Animals & Pets", "Abstract & Artistic", "Sports & Activities",
   "Miscellaneous"]

/-- Output of the external `ml-kmeans` library call: an assignment index
per input row and a centroid per cluster.  The library is a dependency,
not repository code, so it is an oracle parameter of `clusterByTheme`. -/
structure KmeansResult where
  clusters : List Nat
  centroids : List (List ℚ)

/-- The module-private `euclideanDistance` of `clusteringService.ts`
(lines 76-83): no dimension check, plain sum of squared differences under
`Math.sqrt`. -/
noncomputable def euclideanDistanceLocal (a b : List ℚ) : ℝ :=
  Real.sqrt (((List.zipWith (fun x y => (x - y) * (x - y)) a b).sum : ℚ) : ℝ)

/-- Representative selection of `clusterByTheme` (lines 53-63): start from
`clusterFiles[0]` with `minDistance = Infinity` (modelled as `none`), scan
every member and keep the strictly closer one — the first member always
replaces the infinite initial distance, so ties keep the earliest file. -/
noncomputable def selectRepresentative (embeddings : EmbMap)
    (centroid : List ℚ) (clusterFiles : List MediaFile) : Option MediaFile :=
  match clusterFiles with
  | [] => none
  | c0 :: _ =>
    some (clusterFiles.foldl
      (fun (st : MediaFile × Option ℝ) f =>
        let d := euclideanDistanceLocal ((mapGet embeddings f.path).getD []) centroid
        match st.2 with
        | none => (f, some d)
        | some m => if d < m then (f, some d) else st)
      (c0, none)).1

/-- `clusterByTheme(files, embeddings)` of `clusteringService.ts`
(lines 18-74), with the `ml-kmeans` call abstracted as `kmeansFn`:
filter to the files that have an embedding; fewer than 3 of them yields the
single `'All Items'` cluster; otherwise run k-means with
`K = min(max(3, ⌊n/10⌋), 10)`, drop empty clusters, pick representatives,
cycle the fixed labels, and sort by descending member count. -/
noncomputable def clusterByTheme (kmeansFn : List (List ℚ) → Nat → KmeansResult)
    (files : List MediaFile) (embeddings : EmbMap) : List Cluster :=
  let filesWithEmbeddings := files.filter (fun f => (mapGet embeddings f.path).isSome)
  if filesWithEmbeddings.length < 3 then
    [{ id := 0
       label := "All Items"
       files := filesWithEmbeddings
       representative := filesWithEmbeddings.head? }]
  else
    let numClusters := min (max 3 (filesWithEmbeddings.length / 10)) 10
    let embeddingMatrix := filesWithEmbeddings.map (fun f => (mapGet embeddings f.path).getD [])
    let result := kmeansFn embeddingMatrix numClusters
    let clusters := (List.range numClusters).filterMap (fun i =>
      let clusterFiles := ((filesWithEmbeddings.enum).filter
        (fun p => result.clusters.get? p.1 == some i)).map Prod.snd
      if clusterFiles.length = 0 then none
      else
        let centroid := result.centroids.getD i []
        some { id := i
               label := CLUSTER_LABELS.getD (i % CLUSTER_LABELS.length) ""
               files := clusterFiles
               representative := selectRepresentative embeddings centroid clusterFiles })
    clusters.mergeSort (fun c1 c2 => decide (c2.files.length ≤ c1.files.length))

/-- The `.map` step of `sortBySimilarity` (lines 95-99): pair each
candidate with `cosineSimilarity(targetEmbedding, embedding)`.  The thrown
`DimensionMismatch` propagates out, so the whole list computation is in
`Except`; the non-null assertion `embeddings.get(file.path)!` is rendered
as `getD []` — the preceding filter guarantees the entry is present. -/
noncomputable def mapWithSimilarity (targetEmbedding : List ℚ)
    (embeddings : EmbMap) :
    List MediaFile → Except SimilarityError (List (MediaFile × ℝ))
  | [] => .ok []
  | f :: fs =>
    match cosineSimilarity targetEmbedding ((mapGet embeddings f.path).getD []) with
    | .error e => .error e
    | .ok s =>
      match mapWithSimilarity targetEmbedding embeddings fs with
      | .error e => .error e
      | .ok rest => .ok ((f, s) :: rest)

/-- `sortBySimilarity(targetFile, allFiles, embeddings)` of
`clusteringService.ts` (lines 85-103): a target with no embedding returns
`allFiles` unchanged; otherwise keep the candidates that have an embedding
and are not the target (by path), score them by cosine similarity against
the target, sort descending by score (stable), and prepend the target. -/
noncomputable def sortBySimilarity (targetFile : MediaFile)
    (allFiles : List MediaFile) (embeddings : EmbMap) :
    Except SimilarityError (List MediaFile) :=
  match mapGet embeddings targetFile.path with
  | none => .ok allFiles
  | some targetEmbedding =>
    let candidates := allFiles.filter
      (fun f => (mapGet embeddings f.path).isSome && f.path != targetFile.path)
    match mapWithSimilarity targetEmbedding embeddings candidates with
    | .error e => .error e
    | .ok withSim =>
      .ok (targetFile ::
        (withSim.mergeSort (fun p q => decide (q.2 ≤ p.2))).map Prod.fst)

/-! Concrete fixtures used by witnesses and counterexamples. -/

/-- A small image item. -/
def fileA : MediaFile := ⟨"a.jpg", "photos/a.jpg", .image, 100⟩

/-- A second image item. -/
def fileB : MediaFile := ⟨"b.jpg", "photos/b.jpg", .image, 200⟩

/-- A video item. -/
def fileC : MediaFile := ⟨"c.mp4", "photos/c.mp4", .video, 300⟩

/-- A third image item. -/
def fileD : MediaFile := ⟨"d.jpg", "photos/d.jpg", .image, 400⟩

/-- A fourth image item. -/
def fileE : MediaFile := ⟨"e.jpg", "photos/e.jpg", .image, 500⟩

/-- An oracle for which every item fails at the extraction/embedding step. -/
def embedFnAlwaysFails : MediaFile → Except PipelineError (List ℚ) :=
  fun _ => .error .embedFailed

/-- An oracle that embeds every item to the vector `[1]`. -/
def embedFnConstOne : MediaFile → Except PipelineError (List ℚ) :=
  fun _ => .ok [1]

/-- An oracle that fails exactly on `fileC` (frame extraction error) and
embeds everything else to `[1]`. -/
def embedFnFailsOnC : MediaFile → Except PipelineError (List ℚ) :=
  fun f => if f.path = fileC.path then .error .frameExtractionFailed else .ok [1]

/-- An empty, reachable cache. -/
def dbEmptyOk : CacheDB := ⟨[], true⟩

/-- An empty cache whose backend is unreachable. -/
def dbUnavailable : CacheDB := ⟨[], false⟩

/-! ### C7: dimension mismatch -/

/-- Claim C7: for all vector pairs of unequal length, both
`cosineSimilarity` and `euclideanDistance` fail with a `DimensionMismatch`
error rather than returning a number. -/
theorem cosine_euclidean_dimension_mismatch (a b : List ℚ)
    (h : a.length ≠ b.length) :
    cosineSimilarity a b = .error .dimensionMismatch ∧
    euclideanDistance a b = .error .dimensionMismatch := by
  constructor <;> simp [cosineSimilarity, euclideanDistance, h]

/-- Claim C7, witness: the vectors `[1]` and `[1, 2]` have unequal lengths
and both similarity functions reject them. -/
theorem cosine_euclidean_dimension_mismatch_witness :
    ([1] : List ℚ).length ≠ ([1, 2] : List ℚ).length ∧
    cosineSimilarity [1] [1, 2] = .error .dimensionMismatch ∧
    euclideanDistance [1] [1, 2] = .error .dimensionMismatch :=
  ⟨by decide,
   (cosine_euclidean_dimension_mismatch [1] [1, 2] (by decide)).1,
   (cosine_euclidean_dimension_mismatch [1] [1, 2] (by decide)).2⟩

/-! ### C8: cosine similarity of a vector with itself -/

/-- Claim C8, counterexample: the claim quantifies over *every* vector, but
on the zero vector `[0]` the source computes `0 / (Math.sqrt 0 * Math.sqrt 0)`
(`NaN` in JavaScript, `0` in the real-valued model), which is not within
any tolerance below 1 of the claimed value `1.0`. -/
theorem cosine_self_zero_vector_counterexample :
    ¬ ∃ r : ℝ, cosineSimilarity [(0 : ℚ)] [(0 : ℚ)] = .ok r ∧ |r - 1| < 1 / 2 := by
  rintro ⟨r, hr, htol⟩
  have hval : cosineSimilarity [(0 : ℚ)] [(0 : ℚ)] = .ok 0 := by
    simp [cosineSimilarity]
  rw [hval] at hr
  have : (0 : ℝ) = r := by simpa using hr
  subst this
  norm_num at htol

/-- Claim C8 (amended): for every vector with at least one nonzero entry,
`cosineSimilarity(a, a)` equals exactly `1` in the real-valued model: the
one-pass loop makes `dotProduct`, `normA` and `normB` all equal to the sum
of squares `S`, and `S / (√S * √S) = 1` whenever `S > 0`. -/
theorem cosine_self_eq_one (a : List ℚ) (h : ∃ x ∈ a, x ≠ 0) :
    cosineSimilarity a a = .ok 1 := by
  obtain ⟨x, hx, hxne⟩ := h
  have hS : (0 : ℚ) < (a.map (fun x => x * x)).sum := by
    have hle : x * x ≤ (a.map (fun x => x * x)).sum := by
      apply List.single_le_sum (fun y hy => ?_) (x * x)
      · exact List.mem_map_of_mem (fun x => x * x) hx
      · rcases List.mem_map.1 hy with ⟨z, _, rfl⟩
        exact mul_self_nonneg z
    exact lt_of_lt_of_le (mul_self_pos.2 hxne) hle
  have hcast : (0 : ℝ) < (((a.map (fun x => x * x)).sum : ℚ) : ℝ) := by
    exact_mod_cast hS
  simp only [cosineSimilarity, ne_eq, not_true_eq_false, if_false, List.zipWith_same]
  rw [Real.mul_self_sqrt hcast.le]
  rw [div_self hcast.ne']

/-- Claim C8 (amended), witness: `[1, 2]` has a nonzero entry and its
cosine similarity with itself is exactly `1`. -/
theorem cosine_self_eq_one_witness :
    (∃ x ∈ ([1, 2] : List ℚ), x ≠ 0) ∧
    cosineSimilarity ([1, 2] : List ℚ) [1, 2] = .ok 1 :=
  ⟨by decide, cosine_self_eq_one [1, 2] (by decide)⟩

/-! ### C6 and C10: the small-collection branch of clusterByTheme -/

/-- Claim C6: whenever fewer than 3 items of the collection have an
embedding, `clusterByTheme` returns exactly one cluster whose member list
is exactly the embedded items, whatever the collection size and whatever
the k-means oracle does. -/
theorem clusterByTheme_small_single_cluster
    (kmeansFn : List (List ℚ) → Nat → KmeansResult)
    (files : List MediaFile) (embeddings : EmbMap)
    (h : (files.filter (fun f => (mapGet embeddings f.path).isSome)).length < 3) :
    clusterByTheme kmeansFn files embeddings =
      [{ id := 0
         label := "All Items"
         files := files.filter (fun f => (mapGet embeddings f.path).isSome)
         representative :=
           (files.filter (fun f => (mapGet embeddings f.path).isSome)).head? }] := by
  unfold clusterByTheme
  simp [h]

/-- Claim C6, witness: a 4-item collection with exactly 2 embedded items
yields the single `'All Items'` cluster holding exactly those 2 items. -/
theorem clusterByTheme_small_single_cluster_witness :
    ((([fileA, fileB, fileC, fileD] : List MediaFile).filter
        (fun f => (mapGet [(fileA.path, [1]), (fileB.path, [1])] f.path).isSome)).length < 3) ∧
    clusterByTheme (fun _ k => ⟨[], List.replicate k []⟩)
        [fileA, fileB, fileC, fileD] [(fileA.path, [1]), (fileB.path, [1])] =
      [{ id := 0
         label := "All Items"
         files := [fileA, fileB]
         representative := some fileA }] := by
  refine ⟨by decide, ?_⟩
  have h := clusterByTheme_small_single_cluster (fun _ k => ⟨[], List.replicate k []⟩)
    [fileA, fileB, fileC, fileD] [(fileA.path, [1]), (fileB.path, [1])] (by decide)
  rw [h]
  decide

/-- Claim C10: on a collection in which no item has an embedding,
`clusterByTheme` still returns exactly one cluster, with an empty member
list and with `representative` equal to `filesWithEmbeddings[0]` of an
empty list — `undefined` at runtime (`none` in the model), although the
`Cluster` type in `types.ts` declares `representative: MediaFile` as
required. -/
theorem clusterByTheme_no_embeddings
    (kmeansFn : List (List ℚ) → Nat → KmeansResult)
    (files : List MediaFile) (embeddings : EmbMap)
    (h : files.filter (fun f => (mapGet embeddings f.path).isSome) = []) :
    clusterByTheme kmeansFn files embeddings =
      [{ id := 0, label := "All Items", files := [], representative := none }] := by
  unfold clusterByTheme
  simp [h]

/-- Claim C10, witness: two files, an empty embedding map. -/
theorem clusterByTheme_no_embeddings_witness :
    (([fileA, fileB] : List MediaFile).filter
        (fun f => (mapGet [] f.path).isSome) = []) ∧
    clusterByTheme (fun _ k => ⟨[], List.replicate k []⟩) [fileA, fileB] [] =
      [{ id := 0, label := "All Items", files := [], representative := none }] :=
  ⟨by decide,
   clusterByTheme_no_embeddings (fun _ k => ⟨[], List.replicate k []⟩)
     [fileA, fileB] [] (by decide)⟩

/-! ### C1: progress reporting of the batch loop -/

/-- The loop appends progress entries with strictly increasing, in-range
`processed` components and constant `total`. -/
lemma batchGo_progress_append (embedFn : MediaFile → Except PipelineError (List ℚ))
    (total : Nat) :
    ∀ (fs : List MediaFile) (i : Nat) (st : BatchResult),
      ∃ L, (batchGo embedFn total fs i st).progress = st.progress ++ L ∧
        L.Pairwise (fun p q => p.1 < q.1) ∧
        ∀ p ∈ L, i < p.1 ∧ p.1 ≤ i + fs.length ∧ p.2 = total := by
  intro fs
  induction fs with
  | nil =>
    intro i st
    exact ⟨[], by simp [batchGo], by simp, by simp⟩
  | cons f fs ih =>
    intro i st
    rcases hgen : generateEmbedding embedFn st.db f with ⟨r, dbNew, calls⟩
    cases r with
    | ok v =>
      obtain ⟨L, hL, hpw, hbound⟩ := ih (i + 1)
        { embeddings := mapSet st.embeddings f.path v
          db := dbNew
          progress := st.progress ++ [(i + 1, total)]
          embedCalls := st.embedCalls + calls }
      refine ⟨(i + 1, total) :: L, ?_, ?_, ?_⟩
      · simp only [batchGo, hgen]
        rw [hL]
        simp
      · exact List.Pairwise.cons (fun q hq => (hbound q hq).1) hpw
      · intro p hp
        rcases List.mem_cons.1 hp with rfl | hp
        · exact ⟨Nat.lt_succ_self i, by simp [List.length_cons], rfl⟩
        · obtain ⟨h1, h2, h3⟩ := hbound p hp
          refine ⟨Nat.lt_of_succ_lt h1, ?_, h3⟩
          simp only [List.length_cons] at h2 ⊢
          omega
    | error e =>
      obtain ⟨L, hL, hpw, hbound⟩ := ih (i + 1)
        { st with db := dbNew, embedCalls := st.embedCalls + calls }
      refine ⟨L, ?_, hpw, ?_⟩
      · simp only [batchGo, hgen]
        exact hL
      · intro p hp
        obtain ⟨h1, h2, h3⟩ := hbound p hp
        refine ⟨Nat.lt_of_succ_lt h1, ?_, h3⟩
        simp only [List.length_cons] at h2 ⊢
        omega

/-- `generateEmbedding` never changes cache reachability. -/
lemma generateEmbedding_db_ok (embedFn : MediaFile → Except PipelineError (List ℚ))
    (db : CacheDB) (f : MediaFile) :
    ((generateEmbedding embedFn db f).2.1).ok = db.ok := by
  unfold generateEmbedding getEmbeddingDB saveEmbeddingDB
  by_cases hdb : db.ok
  · simp only [hdb, if_true]
    cases hl : List.lookup f.path db.entries with
    | none => cases hef : embedFn f <;> simp [hdb]
    | some c =>
      by_cases hts : c.lastModified = f.lastModified
      · simp [hts, hdb]
      · cases hef : embedFn f <;> simp [hts, hdb]
  · simp [hdb]

/-- With a reachable cache and a succeeding oracle, each item succeeds. -/
lemma generateEmbedding_ok_of (embedFn : MediaFile → Except PipelineError (List ℚ))
    (db : CacheDB) (f : MediaFile) (hdb : db.ok = true)
    (hf : (embedFn f).isOk = true) :
    ((generateEmbedding embedFn db f).1).isOk = true := by
  rcases hef : embedFn f with e | v
  · rw [hef] at hf; simp [Except.isOk, Except.toBool] at hf
  · unfold generateEmbedding getEmbeddingDB saveEmbeddingDB
    simp only [hdb, hef, if_true]
    cases hl : List.lookup f.path db.entries with
    | none => simp [Except.isOk, Except.toBool]
    | some c =>
      by_cases hts : c.lastModified = f.lastModified
      · simp [hts, Except.isOk, Except.toBool]
      · simp [hts, Except.isOk, Except.toBool]

/-- With a reachable cache and an always-succeeding oracle, the loop calls
`onProgress` after every single item, with `processed = i + 1`. -/
lemma batchGo_progress_allOk (embedFn : MediaFile → Except PipelineError (List ℚ))
    (total : Nat) :
    ∀ (fs : List MediaFile) (i : Nat) (st : BatchResult),
      st.db.ok = true → (∀ f ∈ fs, (embedFn f).isOk = true) →
      (batchGo embedFn total fs i st).progress =
        st.progress ++ (List.range' (i + 1) fs.length).map (fun k => (k, total)) := by
  intro fs
  induction fs with
  | nil =>
    intro i st _ _
    simp [batchGo, List.range']
  | cons f fs ih =>
    intro i st hdb hall
    rcases hgen : generateEmbedding embedFn st.db f with ⟨r, dbNew, calls⟩
    have hok : ((generateEmbedding embedFn st.db f).1).isOk = true :=
      generateEmbedding_ok_of embedFn st.db f hdb (hall f (List.mem_cons_self f fs))
    have hdbNew : dbNew.ok = true := by
      have := generateEmbedding_db_ok embedFn st.db f
      rw [hgen] at this
      rw [this]
      exact hdb
    cases r with
    | error e =>
      rw [hgen] at hok
      simp [Except.isOk, Except.toBool] at hok
    | ok v =>
      simp only [batchGo, hgen]
      rw [ih (i + 1)
        { embeddings := mapSet st.embeddings f.path v
          db := dbNew
          progress := st.progress ++ [(i + 1, total)]
          embedCalls := st.embedCalls + calls }
        hdbNew (fun g hg => hall g (List.mem_cons_of_mem f hg))]
      simp [List.range', List.length_cons]

/-! The C1 theorems. -/

/-- Claim C1, counterexample: on a one-item batch whose single item fails,
`onProgress` is never invoked — `batchGenerateEmbeddings` only calls it
inside the `try` block after a success — so it is not invoked once per
item, and `processedCount` never reaches `totalCount`. -/
theorem batch_progress_skips_failed_item_counterexample :
    (batchGenerateEmbeddings embedFnAlwaysFails dbEmptyOk [fileA]).progress.length ≠
      ([fileA] : List MediaFile).length := by
  decide

/-- The loop's progress output is exactly the calls dictated by the run's
success trace, shifted to the loop's current index. -/
lemma batchGo_progress_trace (embedFn : MediaFile → Except PipelineError (List ℚ))
    (total : Nat) :
    ∀ (fs : List MediaFile) (i : Nat) (st : BatchResult),
      (batchGo embedFn total fs i st).progress =
        st.progress ++ successPositions total (batchOutcomes embedFn st.db fs) i := by
  intro fs
  induction fs with
  | nil =>
    intro i st
    simp [batchGo, batchOutcomes, successPositions]
  | cons f fs ih =>
    intro i st
    rcases hgen : generateEmbedding embedFn st.db f with ⟨r, dbNew, calls⟩
    cases r with
    | ok v =>
      simp only [batchGo, batchOutcomes, hgen]
      rw [ih (i + 1)
        { embeddings := mapSet st.embeddings f.path v
          db := dbNew
          progress := st.progress ++ [(i + 1, total)]
          embedCalls := st.embedCalls + calls }]
      simp [successPositions]
    | error e =>
      simp only [batchGo, batchOutcomes, hgen]
      rw [ih (i + 1) { st with db := dbNew, embedCalls := st.embedCalls + calls }]
      simp [successPositions]

/-- Claim C1 (amended): the `onProgress` calls of a run are *exactly* one
call per successful item — `(i + 1, totalCount)` for the 0-based position
`i` of each item whose `generateEmbedding` succeeds, in order, and nothing
for a failed item; consequently the reported `processed` values are
strictly increasing and never exceed `totalCount`, and when the cache is
reachable and every item succeeds there is one call after every item,
ending at `(totalCount, totalCount)`. -/
theorem batch_progress_exactly_per_success
    (embedFn : MediaFile → Except PipelineError (List ℚ))
    (db : CacheDB) (files : List MediaFile) :
    (batchGenerateEmbeddings embedFn db files).progress =
      successPositions files.length (batchOutcomes embedFn db files) 0
    ∧ (batchGenerateEmbeddings embedFn db files).progress.Pairwise
        (fun p q => p.1 < q.1)
    ∧ (∀ p ∈ (batchGenerateEmbeddings embedFn db files).progress,
        1 ≤ p.1 ∧ p.1 ≤ files.length ∧ p.2 = files.length)
    ∧ (db.ok = true → (∀ f ∈ files, (embedFn f).isOk = true) →
        (batchGenerateEmbeddings embedFn db files).progress =
          (List.range' 1 files.length).map (fun k => (k, files.length))) := by
  obtain ⟨L, hL, hpw, hbound⟩ :=
    batchGo_progress_append embedFn files.length files 0 ⟨[], db, [], 0⟩
  refine ⟨?_, ?_, ?_, ?_⟩
  · unfold batchGenerateEmbeddings
    rw [batchGo_progress_trace embedFn files.length files 0 ⟨[], db, [], 0⟩]
    simp
  · unfold batchGenerateEmbeddings
    rw [hL]
    simpa using hpw
  · intro p hp
    unfold batchGenerateEmbeddings at hp
    rw [hL] at hp
    simp only [List.nil_append] at hp
    obtain ⟨h1, h2, h3⟩ := hbound p hp
    exact ⟨h1, by omega, h3⟩
  · intro hdb hall
    unfold batchGenerateEmbeddings
    rw [batchGo_progress_allOk embedFn files.length files 0 ⟨[], db, [], 0⟩ hdb hall]
    simp

/-- Claim C1 (amended), witness: a mixed 3-item run whose second item
fails — the success trace is `[true, false, true]`, so `onProgress` fires
exactly twice, at `(1, 3)` and `(3, 3)`; item 2 produces no call. -/
theorem batch_progress_exactly_per_success_witness :
    (batchGenerateEmbeddings embedFnFailsOnC dbEmptyOk
        [fileA, fileC, fileB]).progress =
      successPositions 3 (batchOutcomes embedFnFailsOnC dbEmptyOk
        [fileA, fileC, fileB]) 0
    ∧ batchOutcomes embedFnFailsOnC dbEmptyOk [fileA, fileC, fileB] =
        [true, false, true]
    ∧ successPositions 3 (batchOutcomes embedFnFailsOnC dbEmptyOk
        [fileA, fileC, fileB]) 0 = [(1, 3), (3, 3)] :=
  ⟨(batch_progress_exactly_per_success embedFnFailsOnC dbEmptyOk
      [fileA, fileC, fileB]).1,
   by decide, by decide⟩

/-! ### C2: partial-failure semantics of the batch -/

/-- Claim C2 (what the code actually does at the spec's own scenario):
over 5 items where item 3's frame extraction fails, the batch completes,
the result map holds exactly the 4 succeeded items, and progress is
reported only after the successes — but there is no `onItemError`
invocation anywhere, because `batchGenerateEmbeddings` accepts no such
callback: the failure is only logged.  (`App.tsx` does pass an error
callback as a third argument, which the two-parameter function silently
drops.) -/
theorem batch_partial_failure_run :
    (batchGenerateEmbeddings embedFnFailsOnC dbEmptyOk
        [fileA, fileB, fileC, fileD, fileE]).embeddings =
      [(fileA.path, [1]), (fileB.path, [1]), (fileD.path, [1]), (fileE.path, [1])]
    ∧ (batchGenerateEmbeddings embedFnFailsOnC dbEmptyOk
        [fileA, fileB, fileC, fileD, fileE]).progress =
      [(1, 5), (2, 5), (4, 5), (5, 5)] := by
  constructor <;> rfl

/-! ### Behavior of generateEmbedding on hits and misses -/

/-- Fresh cache hit: the cached vector is returned with no oracle work and
no cache write. -/
lemma generateEmbedding_hit (embedFn : MediaFile → Except PipelineError (List ℚ))
    (db : CacheDB) (f : MediaFile) (c : EmbeddingCacheRecord)
    (hdb : db.ok = true) (hc : List.lookup f.path db.entries = some c)
    (hts : c.lastModified = f.lastModified) :
    generateEmbedding embedFn db f = (.ok c.embedding, db, 0) := by
  unfold generateEmbedding getEmbeddingDB
  simp [hdb, hc, hts]

/-- Cache miss (no fresh entry) with a succeeding oracle: the vector is
generated once and persisted. -/
lemma generateEmbedding_miss_ok (embedFn : MediaFile → Except PipelineError (List ℚ))
    (db : CacheDB) (f : MediaFile) (v : List ℚ) (hdb : db.ok = true)
    (hmiss : ∀ c, List.lookup f.path db.entries = some c →
      c.lastModified ≠ f.lastModified)
    (hv : embedFn f = .ok v) :
    generateEmbedding embedFn db f =
      (.ok v,
       { db with entries := entriesPut db.entries ⟨f.path, f.lastModified, v, ""⟩ },
       1) := by
  unfold generateEmbedding getEmbeddingDB saveEmbeddingDB
  simp only [hdb, if_true]
  cases hl : List.lookup f.path db.entries with
  | none => simp [hv]
  | some c => simp [hmiss c hl, hv]

/-- Cache miss with a failing oracle: the item fails, nothing is written. -/
lemma generateEmbedding_miss_error (embedFn : MediaFile → Except PipelineError (List ℚ))
    (db : CacheDB) (f : MediaFile) (e : PipelineError) (hdb : db.ok = true)
    (hmiss : ∀ c, List.lookup f.path db.entries = some c →
      c.lastModified ≠ f.lastModified)
    (he : embedFn f = .error e) :
    generateEmbedding embedFn db f = (.error e, db, 1) := by
  unfold generateEmbedding getEmbeddingDB
  simp only [hdb, if_true]
  cases hl : List.lookup f.path db.entries with
  | none => simp [he]
  | some c => simp [hmiss c hl, he]

/-! ### C3: cache reuse iff fresh entry -/

/-- Claim C3: with a reachable cache, the pipeline does zero extractor or
model work on an item iff a cache entry exists under the item's path whose
`lastModified` equals the item's; on such a hit the cached vector is
returned and the cache is untouched, and on any mismatch (absent or stale
entry) generation is triggered. -/
theorem generateEmbedding_cache_reuse_iff
    (embedFn : MediaFile → Except PipelineError (List ℚ))
    (db : CacheDB) (f : MediaFile) (hdb : db.ok = true) :
    ((generateEmbedding embedFn db f).2.2 = 0 ↔
      ∃ c, List.lookup f.path db.entries = some c ∧
        c.lastModified = f.lastModified)
    ∧ (∀ c, List.lookup f.path db.entries = some c →
        c.lastModified = f.lastModified →
        generateEmbedding embedFn db f = (.ok c.embedding, db, 0))
    ∧ ((¬ ∃ c, List.lookup f.path db.entries = some c ∧
          c.lastModified = f.lastModified) →
        (generateEmbedding embedFn db f).2.2 = 1) := by
  by_cases hfresh : ∃ c, List.lookup f.path db.entries = some c ∧
      c.lastModified = f.lastModified
  · obtain ⟨c, hc, hts⟩ := hfresh
    have hgen := generateEmbedding_hit embedFn db f c hdb hc hts
    refine ⟨?_, ?_, ?_⟩
    · rw [hgen]
      exact iff_of_true rfl ⟨c, hc, hts⟩
    · intro c₂ hc₂ _
      rw [hc] at hc₂
      cases hc₂
      exact hgen
    · intro hn
      exact absurd ⟨c, hc, hts⟩ hn
  · have hmiss : ∀ c, List.lookup f.path db.entries = some c →
        c.lastModified ≠ f.lastModified := by
      intro c hc hts
      exact hfresh ⟨c, hc, hts⟩
    have hone : (generateEmbedding embedFn db f).2.2 = 1 := by
      rcases hef : embedFn f with e | v
      · rw [generateEmbedding_miss_error embedFn db f e hdb hmiss hef]
      · rw [generateEmbedding_miss_ok embedFn db f v hdb hmiss hef]
    refine ⟨?_, ?_, fun _ => hone⟩
    · rw [hone]
      simp only [one_ne_zero, false_iff]
      exact hfresh
    · intro c hc hts
      exact absurd ⟨c, hc, hts⟩ hfresh

/-- Claim C3, witness: a cache holding a fresh entry for `fileA` under its
path; the hit is served with zero oracle calls, and the strict form of the
iff holds. -/
theorem generateEmbedding_cache_reuse_iff_witness :
    ((⟨[(fileA.path, ⟨fileA.path, fileA.lastModified, [1], ""⟩)], true⟩ :
        CacheDB).ok = true) ∧
    generateEmbedding embedFnAlwaysFails
        ⟨[(fileA.path, ⟨fileA.path, fileA.lastModified, [1], ""⟩)], true⟩ fileA =
      (.ok [1],
       ⟨[(fileA.path, ⟨fileA.path, fileA.lastModified, [1], ""⟩)], true⟩, 0) := by
  refine ⟨rfl, ?_⟩
  have h := (generateEmbedding_cache_reuse_iff embedFnAlwaysFails
    ⟨[(fileA.path, ⟨fileA.path, fileA.lastModified, [1], ""⟩)], true⟩ fileA rfl).2.1
    ⟨fileA.path, fileA.lastModified, [1], ""⟩ (by rfl) (by rfl)
  exact h

/-! ### C9: behavior when the cache backend is unavailable -/

/-- With an unreachable backend, the cache read before the `try` block
rejects the item immediately: no extractor or model work happens at all. -/
lemma generateEmbedding_storage_unavailable
    (embedFn : MediaFile → Except PipelineError (List ℚ)) (db : CacheDB)
    (f : MediaFile) (hdb : db.ok = false) :
    generateEmbedding embedFn db f = (.error .storageUnavailable, db, 0) := by
  unfold generateEmbedding getEmbeddingDB
  simp [hdb]

/-- With an unreachable backend, the whole batch loop is a no-op on its
accumulators: every item fails before any work. -/
lemma batchGo_storage_unavailable
    (embedFn : MediaFile → Except PipelineError (List ℚ)) (total : Nat) :
    ∀ (fs : List MediaFile) (i : Nat) (st : BatchResult),
      st.db.ok = false → batchGo embedFn total fs i st = st := by
  intro fs
  induction fs with
  | nil => intro i st _; rfl
  | cons f fs ih =>
    intro i st hdb
    have hgen := generateEmbedding_storage_unavailable embedFn st.db f hdb
    simp only [batchGo, hgen]
    have : ({ st with db := st.db, embedCalls := st.embedCalls + 0 } : BatchResult) = st := by
      simp
    rw [this]
    exact ih (i + 1) st hdb

/-- Claim C9, counterexample: with the cache backend unavailable and an
oracle that would embed every item, a one-item batch does *not* degrade to
uncached embedding — the item itself fails (`generateEmbedding` rejects on
the cache read made before its `try` block, entering the
extractor/model path zero times) and the resulting map is empty. -/
theorem storage_unavailable_no_degraded_mode_counterexample :
    generateEmbedding embedFnConstOne dbUnavailable fileA =
      (.error .storageUnavailable, dbUnavailable, 0)
    ∧ (batchGenerateEmbeddings embedFnConstOne dbUnavailable [fileA]).embeddings = []
    ∧ (batchGenerateEmbeddings embedFnConstOne dbUnavailable [fileA]).embedCalls = 0 := by
  exact ⟨rfl, rfl, rfl⟩

/-- Claim C9 (amended): when the cache backend is unavailable, every item
fails with `StorageUnavailable` before any extractor or model work, and the
batch still runs to completion — returning an empty map with no progress
call and zero oracle invocations; the session does not crash, but no
uncached embedding is performed. -/
theorem batch_storage_unavailable
    (embedFn : MediaFile → Except PipelineError (List ℚ)) (db : CacheDB)
    (files : List MediaFile) (hdb : db.ok = false) :
    (batchGenerateEmbeddings embedFn db files).embeddings = []
    ∧ (batchGenerateEmbeddings embedFn db files).embedCalls = 0
    ∧ (batchGenerateEmbeddings embedFn db files).progress = []
    ∧ ∀ f, generateEmbedding embedFn db f = (.error .storageUnavailable, db, 0) := by
  have h := batchGo_storage_unavailable embedFn files.length files 0 ⟨[], db, [], 0⟩ hdb
  unfold batchGenerateEmbeddings
  rw [h]
  exact ⟨rfl, rfl, rfl, fun f => generateEmbedding_storage_unavailable embedFn db f hdb⟩

/-- Claim C9 (amended), witness: the unavailable-backend batch over two
items returns the empty map with zero oracle calls. -/
theorem batch_storage_unavailable_witness :
    dbUnavailable.ok = false ∧
    (batchGenerateEmbeddings embedFnConstOne dbUnavailable [fileA, fileB]).embeddings = []
    ∧ (batchGenerateEmbeddings embedFnConstOne dbUnavailable [fileA, fileB]).embedCalls = 0
    ∧ (batchGenerateEmbeddings embedFnConstOne dbUnavailable [fileA, fileB]).progress = []
    ∧ ∀ f, generateEmbedding embedFnConstOne dbUnavailable f =
        (.error .storageUnavailable, dbUnavailable, 0) :=
  ⟨rfl,
   (batch_storage_unavailable embedFnConstOne dbUnavailable [fileA, fileB] rfl).1,
   (batch_storage_unavailable embedFnConstOne dbUnavailable [fileA, fileB] rfl).2.1,
   (batch_storage_unavailable embedFnConstOne dbUnavailable [fileA, fileB] rfl).2.2.1,
   (batch_storage_unavailable embedFnConstOne dbUnavailable [fileA, fileB] rfl).2.2.2⟩

/-! ### C5: similarity search never returns the target or unembedded items -/

/-- Every file in a successful `.map` step comes from the input list. -/
lemma mapWithSimilarity_mem (tE : List ℚ) (embs : EmbMap) :
    ∀ (l : List MediaFile) (ys : List (MediaFile × ℝ)),
      mapWithSimilarity tE embs l = .ok ys → ∀ p ∈ ys, p.1 ∈ l := by
  intro l
  induction l with
  | nil =>
    intro ys h p hp
    simp only [mapWithSimilarity, Except.ok.injEq] at h
    subst h
    simp at hp
  | cons f fs ih =>
    intro ys h p hp
    simp only [mapWithSimilarity] at h
    cases hcos : cosineSimilarity tE ((mapGet embs f.path).getD []) with
    | error e => rw [hcos] at h; simp at h
    | ok s =>
      rw [hcos] at h
      cases hrec : mapWithSimilarity tE embs fs with
      | error e => rw [hrec] at h; simp at h
      | ok rest =>
        rw [hrec] at h
        simp only [Except.ok.injEq] at h
        subst h
        rcases List.mem_cons.1 hp with rfl | hp
        · exact List.mem_cons_self f fs
        · exact List.mem_cons_of_mem f (ih rest hrec p hp)

/-- Claim C5: for a target that has an embedding, whenever
`sortBySimilarity` returns, its result is the target prepended to a ranked
sequence that contains neither the target itself (by path identity) nor
any candidate lacking an embedding. -/
theorem sortBySimilarity_excludes (targetFile : MediaFile)
    (allFiles : List MediaFile) (embeddings : EmbMap) (tE : List ℚ)
    (h : mapGet embeddings targetFile.path = some tE) :
    ∀ res, sortBySimilarity targetFile allFiles embeddings = .ok res →
      ∃ rest, res = targetFile :: rest ∧
        ∀ f ∈ rest, (mapGet embeddings f.path).isSome = true ∧
          f.path ≠ targetFile.path := by
  intro res hres
  unfold sortBySimilarity at hres
  rw [h] at hres
  simp only at hres
  cases hmap : mapWithSimilarity tE embeddings
      (allFiles.filter
        (fun f => (mapGet embeddings f.path).isSome && f.path != targetFile.path)) with
  | error e => rw [hmap] at hres; simp at hres
  | ok withSim =>
    rw [hmap] at hres
    simp only [Except.ok.injEq] at hres
    refine ⟨(withSim.mergeSort (fun p q => decide (q.2 ≤ p.2))).map Prod.fst,
      hres.symm, ?_⟩
    intro f hf
    obtain ⟨p, hpmem, hpf⟩ := List.mem_map.1 hf
    have hpws : p ∈ withSim :=
      (List.mergeSort_perm withSim (fun p q => decide (q.2 ≤ p.2))).mem_iff.1 hpmem
    have hcand := mapWithSimilarity_mem tE embeddings _ withSim hmap p hpws
    obtain ⟨-, hpred⟩ := List.mem_filter.1 hcand
    rw [hpf] at hpred
    rw [Bool.and_eq_true] at hpred
    exact ⟨hpred.1, bne_iff_ne.1 hpred.2⟩

/-- Claim C5, witness: target `fileA` with embedding `[1]`, candidate list
containing the target itself and an unembedded `fileB`; the result is the
target alone, and the ranked tail (empty here) satisfies the exclusions. -/
theorem sortBySimilarity_excludes_witness :
    (mapGet [(fileA.path, [1])] fileA.path = some [1]) ∧
    ∀ res, sortBySimilarity fileA [fileA, fileB] [(fileA.path, [1])] = .ok res →
      ∃ rest, res = fileA :: rest ∧
        ∀ f ∈ rest, (mapGet [(fileA.path, [1])] f.path).isSome = true ∧
          f.path ≠ fileA.path :=
  ⟨rfl, sortBySimilarity_excludes fileA [fileA, fileB] [(fileA.path, [1])] [1] rfl⟩

/-! ### C4: idempotence of a second run over an unchanged collection -/

/-- Overwriting the entry stored under `rec.path` leaves lookups at other
keys unchanged (in-place branch of `entriesPut`). -/
lemma lookup_map_overwrite (rec : EmbeddingCacheRecord) (p : String)
    (hp : p ≠ rec.path) :
    ∀ entries : List (String × EmbeddingCacheRecord),
      List.lookup p (entries.map
        (fun kv => if kv.1 == rec.path then (rec.path, rec) else kv)) =
      List.lookup p entries := by
  have hbp : (p == rec.path) = false := beq_eq_false_iff_ne.2 hp
  intro entries
  induction entries with
  | nil => rfl
  | cons kv rest ih =>
    by_cases hk : (kv.1 == rec.path) = true
    · have hkeq : kv.1 = rec.path := by simpa using hk
      simp only [List.map_cons, if_pos hk]
      rw [List.lookup, List.lookup, hkeq, hbp]
      exact ih
    · simp only [List.map_cons, if_neg hk]
      rw [List.lookup, List.lookup]
      cases hpk : p == kv.1 with
      | true => rfl
      | false => exact ih

/-- Appending a record keyed `rec.path` leaves lookups at other keys
unchanged (append branch of `entriesPut`). -/
lemma lookup_append_single (rec : EmbeddingCacheRecord) (p : String)
    (hp : p ≠ rec.path) :
    ∀ entries : List (String × EmbeddingCacheRecord),
      List.lookup p (entries ++ [(rec.path, rec)]) = List.lookup p entries := by
  have hbp : (p == rec.path) = false := beq_eq_false_iff_ne.2 hp
  intro entries
  induction entries with
  | nil => simp [List.lookup, hbp]
  | cons kv rest ih =>
    rw [List.cons_append, List.lookup, List.lookup]
    cases hpk : p == kv.1 with
    | true => rfl
    | false => exact ih

/-- `entriesPut` does not disturb other keys. -/
lemma entriesPut_lookup_other (entries : List (String × EmbeddingCacheRecord))
    (rec : EmbeddingCacheRecord) (p : String) (hp : p ≠ rec.path) :
    List.lookup p (entriesPut entries rec) = List.lookup p entries := by
  unfold entriesPut
  split
  · exact lookup_map_overwrite rec p hp entries
  · exact lookup_append_single rec p hp entries

/-- In-place branch: when the key is present, overwriting makes the lookup
return the new record. -/
lemma lookup_map_overwrite_self (rec : EmbeddingCacheRecord) :
    ∀ entries : List (String × EmbeddingCacheRecord),
      (List.lookup rec.path entries).isSome = true →
      List.lookup rec.path (entries.map
        (fun kv => if kv.1 == rec.path then (rec.path, rec) else kv)) = some rec := by
  intro entries
  induction entries with
  | nil => intro h; simp [List.lookup] at h
  | cons kv rest ih =>
    intro h
    by_cases hk : (kv.1 == rec.path) = true
    · simp only [List.map_cons, if_pos hk]
      rw [List.lookup, beq_self_eq_true]
    · have hbk : (rec.path == kv.1) = false := by
        have hne : kv.1 ≠ rec.path := by simpa using hk
        exact beq_eq_false_iff_ne.2 (Ne.symm hne)
      simp only [List.map_cons, if_neg hk]
      rw [List.lookup, hbk]
      rw [List.lookup, hbk] at h
      exact ih h

/-- Append branch: when the key is absent, the appended record is found. -/
lemma lookup_append_single_self (rec : EmbeddingCacheRecord) :
    ∀ entries : List (String × EmbeddingCacheRecord),
      List.lookup rec.path entries = none →
      List.lookup rec.path (entries ++ [(rec.path, rec)]) = some rec := by
  intro entries
  induction entries with
  | nil => intro _; simp [List.lookup]
  | cons kv rest ih =>
    intro h
    rw [List.lookup] at h
    rw [List.cons_append, List.lookup]
    cases hpk : rec.path == kv.1 with
    | true => rw [hpk] at h; simp at h
    | false => rw [hpk] at h; exact ih h

/-- After `entriesPut`, the record is stored under its own path. -/
lemma entriesPut_lookup_self (entries : List (String × EmbeddingCacheRecord))
    (rec : EmbeddingCacheRecord) :
    List.lookup rec.path (entriesPut entries rec) = some rec := by
  unfold entriesPut
  by_cases hs : (List.lookup rec.path entries).isSome = true
  · simp only [hs, if_true]
    exact lookup_map_overwrite_self rec entries hs
  · simp only [hs, if_false]
    have hnone : List.lookup rec.path entries = none := by
      cases h : List.lookup rec.path entries with
      | none => rfl
      | some c => rw [h] at hs; simp at hs
    exact lookup_append_single_self rec entries hnone

/-- `generateEmbedding` never touches cache entries stored under a
different path. -/
lemma generateEmbedding_entries_frame
    (embedFn : MediaFile → Except PipelineError (List ℚ)) (db : CacheDB)
    (f : MediaFile) (p : String) (hp : p ≠ f.path) :
    List.lookup p ((generateEmbedding embedFn db f).2.1).entries =
      List.lookup p db.entries := by
  unfold generateEmbedding getEmbeddingDB saveEmbeddingDB
  by_cases hdb : db.ok
  · simp only [hdb, if_true]
    cases hl : List.lookup f.path db.entries with
    | none =>
      cases hef : embedFn f with
      | error e => simp
      | ok v => simpa using entriesPut_lookup_other db.entries ⟨f.path, f.lastModified, v, ""⟩ p hp
    | some c =>
      by_cases hts : c.lastModified = f.lastModified
      · simp [hts]
      · cases hef : embedFn f with
        | error e => simp [hts]
        | ok v =>
          simp only [hts, if_false]
          simpa using entriesPut_lookup_other db.entries ⟨f.path, f.lastModified, v, ""⟩ p hp
  · simp [hdb]

/-- The batch loop never touches cache entries whose path is not among the
remaining items. -/
lemma batchGo_entries_frame (embedFn : MediaFile → Except PipelineError (List ℚ))
    (total : Nat) :
    ∀ (fs : List MediaFile) (i : Nat) (st : BatchResult) (p : String),
      p ∉ fs.map (fun f => f.path) →
      List.lookup p ((batchGo embedFn total fs i st).db).entries =
        List.lookup p st.db.entries := by
  intro fs
  induction fs with
  | nil => intro i st p _; rfl
  | cons f fs ih =>
    intro i st p hp
    rw [List.map_cons, List.mem_cons] at hp
    push_neg at hp
    rcases hgen : generateEmbedding embedFn st.db f with ⟨r, dbNew, calls⟩
    have hframe : List.lookup p dbNew.entries = List.lookup p st.db.entries := by
      have h := generateEmbedding_entries_frame embedFn st.db f p hp.1
      rw [hgen] at h
      exact h
    cases r with
    | ok v =>
      simp only [batchGo, hgen]
      rw [ih (i + 1) _ p hp.2]
      exact hframe
    | error e =>
      simp only [batchGo, hgen]
      rw [ih (i + 1) _ p hp.2]
      exact hframe

/-- The batch loop preserves cache reachability. -/
lemma batchGo_db_ok (embedFn : MediaFile → Except PipelineError (List ℚ))
    (total : Nat) :
    ∀ (fs : List MediaFile) (i : Nat) (st : BatchResult),
      ((batchGo embedFn total fs i st).db).ok = st.db.ok := by
  intro fs
  induction fs with
  | nil => intro i st; rfl
  | cons f fs ih =>
    intro i st
    rcases hgen : generateEmbedding embedFn st.db f with ⟨r, dbNew, calls⟩
    have hok : dbNew.ok = st.db.ok := by
      have h := generateEmbedding_db_ok embedFn st.db f
      rw [hgen] at h
      exact h
    cases r with
    | ok v => simp only [batchGo, hgen]; rw [ih (i + 1)]; exact hok
    | error e => simp only [batchGo, hgen]; rw [ih (i + 1)]; exact hok

/-- Second-run simulation: running the loop again on the cache produced by
a first run (unique paths, reachable backend) accumulates exactly the same
embedding map, never writes to the cache, and — when the oracle succeeds on
every item — performs no oracle work at all. -/
lemma batchGo_second_run (embedFn : MediaFile → Except PipelineError (List ℚ))
    (total : Nat) :
    ∀ (fs : List MediaFile) (i : Nat) (st1 st2 : BatchResult),
      st1.db.ok = true →
      (fs.map (fun f => f.path)).Nodup →
      st2.embeddings = st1.embeddings →
      st2.db = (batchGo embedFn total fs i st1).db →
      (batchGo embedFn total fs i st2).embeddings =
        (batchGo embedFn total fs i st1).embeddings
      ∧ (batchGo embedFn total fs i st2).db = st2.db
      ∧ ((∀ f ∈ fs, (embedFn f).isOk = true) →
          (batchGo embedFn total fs i st2).embedCalls = st2.embedCalls) := by
  intro fs
  induction fs with
  | nil =>
    intro i st1 st2 _ _ hemb _
    exact ⟨hemb, rfl, fun _ => rfl⟩
  | cons f fs ih =>
    intro i st1 st2 hdb hnd hemb hdb2
    rw [List.map_cons, List.nodup_cons] at hnd
    obtain ⟨hnotin, hndrest⟩ := hnd
    by_cases hfresh : ∃ c, List.lookup f.path st1.db.entries = some c ∧
        c.lastModified = f.lastModified
    · obtain ⟨c, hc, hts⟩ := hfresh
      have hgen1 := generateEmbedding_hit embedFn st1.db f c hdb hc hts
      have hrun1 : batchGo embedFn total (f :: fs) i st1 =
          batchGo embedFn total fs (i + 1)
            { embeddings := mapSet st1.embeddings f.path c.embedding
              db := st1.db
              progress := st1.progress ++ [(i + 1, total)]
              embedCalls := st1.embedCalls + 0 } := by
        simp only [batchGo, hgen1]
      have hlook2 : List.lookup f.path st2.db.entries = some c := by
        rw [hdb2, hrun1,
          batchGo_entries_frame embedFn total fs (i + 1) _ f.path hnotin]
        exact hc
      have hok2 : st2.db.ok = true := by
        rw [hdb2, hrun1, batchGo_db_ok]
        exact hdb
      have hgen2 := generateEmbedding_hit embedFn st2.db f c hok2 hlook2 hts
      have hrun2 : batchGo embedFn total (f :: fs) i st2 =
          batchGo embedFn total fs (i + 1)
            { embeddings := mapSet st2.embeddings f.path c.embedding
              db := st2.db
              progress := st2.progress ++ [(i + 1, total)]
              embedCalls := st2.embedCalls + 0 } := by
        simp only [batchGo, hgen2]
      obtain ⟨hE, hD, hC⟩ := ih (i + 1)
        { embeddings := mapSet st1.embeddings f.path c.embedding
          db := st1.db
          progress := st1.progress ++ [(i + 1, total)]
          embedCalls := st1.embedCalls + 0 }
        { embeddings := mapSet st2.embeddings f.path c.embedding
          db := st2.db
          progress := st2.progress ++ [(i + 1, total)]
          embedCalls := st2.embedCalls + 0 }
        hdb hndrest (by rw [hemb]) (by rw [← hrun1, ← hdb2])
      rw [hrun1, hrun2]
      refine ⟨hE, hD, ?_⟩
      intro hall
      rw [hC (fun g hg => hall g (List.mem_cons_of_mem f hg))]
      exact Nat.add_zero st2.embedCalls
    · have hmiss : ∀ c, List.lookup f.path st1.db.entries = some c →
          c.lastModified ≠ f.lastModified :=
        fun c hc hts => hfresh ⟨c, hc, hts⟩
      rcases hef : embedFn f with e | v
      · have hgen1 := generateEmbedding_miss_error embedFn st1.db f e hdb hmiss hef
        have hrun1 : batchGo embedFn total (f :: fs) i st1 =
            batchGo embedFn total fs (i + 1)
              { st1 with db := st1.db, embedCalls := st1.embedCalls + 1 } := by
          simp only [batchGo, hgen1]
        have hlookeq : List.lookup f.path st2.db.entries =
            List.lookup f.path st1.db.entries := by
          rw [hdb2, hrun1,
            batchGo_entries_frame embedFn total fs (i + 1) _ f.path hnotin]
        have hok2 : st2.db.ok = true := by
          rw [hdb2, hrun1, batchGo_db_ok]
          exact hdb
        have hmiss2 : ∀ c, List.lookup f.path st2.db.entries = some c →
            c.lastModified ≠ f.lastModified := by
          intro c hc
          rw [hlookeq] at hc
          exact hmiss c hc
        have hgen2 := generateEmbedding_miss_error embedFn st2.db f e hok2 hmiss2 hef
        have hrun2 : batchGo embedFn total (f :: fs) i st2 =
            batchGo embedFn total fs (i + 1)
              { st2 with db := st2.db, embedCalls := st2.embedCalls + 1 } := by
          simp only [batchGo, hgen2]
        obtain ⟨hE, hD, hC⟩ := ih (i + 1)
          { st1 with db := st1.db, embedCalls := st1.embedCalls + 1 }
          { st2 with db := st2.db, embedCalls := st2.embedCalls + 1 }
          hdb hndrest hemb (by rw [← hrun1, ← hdb2])
        rw [hrun1, hrun2]
        refine ⟨hE, hD, ?_⟩
        intro hall
        have hcontra := hall f (List.mem_cons_self f fs)
        rw [hef] at hcontra
        simp [Except.isOk, Except.toBool] at hcontra
      · have hgen1 := generateEmbedding_miss_ok embedFn st1.db f v hdb hmiss hef
        have hrun1 : batchGo embedFn total (f :: fs) i st1 =
            batchGo embedFn total fs (i + 1)
              { embeddings := mapSet st1.embeddings f.path v
                db := ⟨entriesPut st1.db.entries ⟨f.path, f.lastModified, v, ""⟩, st1.db.ok⟩
                progress := st1.progress ++ [(i + 1, total)]
                embedCalls := st1.embedCalls + 1 } := by
          simp only [batchGo, hgen1]
        have hlook2 : List.lookup f.path st2.db.entries =
            some ⟨f.path, f.lastModified, v, ""⟩ := by
          rw [hdb2, hrun1,
            batchGo_entries_frame embedFn total fs (i + 1) _ f.path hnotin]
          exact entriesPut_lookup_self st1.db.entries ⟨f.path, f.lastModified, v, ""⟩
        have hok2 : st2.db.ok = true := by
          rw [hdb2, hrun1, batchGo_db_ok]
          exact hdb
        have hgen2 : generateEmbedding embedFn st2.db f = (.ok v, st2.db, 0) :=
          generateEmbedding_hit embedFn st2.db f
            ⟨f.path, f.lastModified, v, ""⟩ hok2 hlook2 rfl
        have hrun2 : batchGo embedFn total (f :: fs) i st2 =
            batchGo embedFn total fs (i + 1)
              { embeddings := mapSet st2.embeddings f.path v
                db := st2.db
                progress := st2.progress ++ [(i + 1, total)]
                embedCalls := st2.embedCalls + 0 } := by
          simp only [batchGo, hgen2]
        obtain ⟨hE, hD, hC⟩ := ih (i + 1)
          { embeddings := mapSet st1.embeddings f.path v
            db := ⟨entriesPut st1.db.entries ⟨f.path, f.lastModified, v, ""⟩, st1.db.ok⟩
            progress := st1.progress ++ [(i + 1, total)]
            embedCalls := st1.embedCalls + 1 }
          { embeddings := mapSet st2.embeddings f.path v
            db := st2.db
            progress := st2.progress ++ [(i + 1, total)]
            embedCalls := st2.embedCalls + 0 }
          hdb hndrest (by rw [hemb]) (by rw [← hrun1, ← hdb2])
        rw [hrun1, hrun2]
        refine ⟨hE, hD, ?_⟩
        intro hall
        rw [hC (fun g hg => hall g (List.mem_cons_of_mem f hg))]
        exact Nat.add_zero st2.embedCalls

/-- Claim C4: over a collection of pairwise distinct paths and a reachable
cache, a second `batchGenerateEmbeddings` run on the cache produced by the
first returns an identical embedding map, and — when every item succeeds,
so that the first run cached all of them — the second run performs zero
extractor/model invocations. -/
theorem batch_idempotent (embedFn : MediaFile → Except PipelineError (List ℚ))
    (db : CacheDB) (files : List MediaFile) (hdb : db.ok = true)
    (hnd : (files.map (fun f => f.path)).Nodup) :
    (batchGenerateEmbeddings embedFn
        (batchGenerateEmbeddings embedFn db files).db files).embeddings =
      (batchGenerateEmbeddings embedFn db files).embeddings
    ∧ ((∀ f ∈ files, (embedFn f).isOk = true) →
        (batchGenerateEmbeddings embedFn
            (batchGenerateEmbeddings embedFn db files).db files).embedCalls = 0) := by
  obtain ⟨hE, _, hC⟩ := batchGo_second_run embedFn files.length files 0
    ⟨[], db, [], 0⟩ ⟨[], (batchGenerateEmbeddings embedFn db files).db, [], 0⟩
    hdb hnd rfl rfl
  exact ⟨hE, hC⟩

/-- Claim C4, witness: two distinct items, an always-succeeding oracle, an
empty reachable cache — the second run returns the same map with zero
oracle calls. -/
theorem batch_idempotent_witness :
    (dbEmptyOk.ok = true
      ∧ (([fileA, fileB] : List MediaFile).map (fun f => f.path)).Nodup
      ∧ ∀ f ∈ ([fileA, fileB] : List MediaFile), (embedFnConstOne f).isOk = true) ∧
    (batchGenerateEmbeddings embedFnConstOne
        (batchGenerateEmbeddings embedFnConstOne dbEmptyOk [fileA, fileB]).db
        [fileA, fileB]).embeddings =
      (batchGenerateEmbeddings embedFnConstOne dbEmptyOk [fileA, fileB]).embeddings
    ∧ (batchGenerateEmbeddings embedFnConstOne
        (batchGenerateEmbeddings embedFnConstOne dbEmptyOk [fileA, fileB]).db
        [fileA, fileB]).embedCalls = 0 :=
  ⟨⟨rfl, by decide, by decide⟩,
   (batch_idempotent embedFnConstOne dbEmptyOk [fileA, fileB] rfl (by decide)).1,
   (batch_idempotent embedFnConstOne dbEmptyOk [fileA, fileB] rfl (by decide)).2
     (by decide)⟩

end PhotoViewer
